import Mathlib

/-!
Verification of the embedgdb RSP packet codec and command dispatcher.

Bytes are modelled as `Nat` (with explicit `% 2 ^ w` wherever the Rust code
relies on machine-word wrap-around), byte slices as `List Nat`, fallible
operations as `Option`/`Except`.  A Rust slice-indexing operation that can
panic is modelled through `slice`, which returns `none` exactly when the
range check `a <= b && b <= len` fails; a `none` bubbling out of a parsing
function marks a panic of the original program.
-/

namespace EmbedGdb

/-- Error kinds, from `src/lib/src/error.rs` (`enum Errors`). -/
inductive Errors where
  | MemoryFilledInterupt
  | NotTerminated
  | InvalidChecksum
  | UnexpectedIntroduction
  | CommandError
  | OutOfDataError
  | BadNumber
  | InsufficientArguments
  | AddressOutOfRange
  | LengthMismatch
deriving DecidableEq, Repr

/-- Command variants, from `src/lib/src/command.rs` (`enum Commands`).
Variants that carry a `ResponseWriter` over the argument slice are modelled
as carrying that argument slice (`fields`); variants whose writer is always
`ResponseWriter::new(&[])` carry nothing. -/
inductive Commands where
  | NoCommand
  | Unsupported
  | RetransmitLast
  | AcknowledgeLast
  | NotImplemented
  | Retransmit (error : Errors)
  | Acknowledge
  | Reason
  | ReadRegister
  | WriteRegister (fields : List Nat)
  | ReadMemory (fields : List Nat)
  | WriteMemory (fields : List Nat)
deriving DecidableEq, Repr

/-- Parser output pair, from `src/lib/src/parser.rs` (`struct Parsed`). -/
structure Parsed where
  response : Option Commands
  command : Option Commands
deriving DecidableEq, Repr

/-- `Parsed::ack`, from `src/lib/src/parser.rs`. -/
def Parsed.ack (command : Option Commands) : Parsed :=
  ⟨some .Acknowledge, command⟩

/-- `Parser::retransmit`, from `src/lib/src/parser.rs`. -/
def retransmit (error : Errors) : Parsed :=
  ⟨some (.Retransmit error), none⟩

/-- `Parser::from_hex`, from `src/lib/src/parser.rs`: one ASCII hex digit to
its value; `48..57` are `'0'..'9'`, `65..70` are `'A'..'F'`, `97..102` are
`'a'..'f'`. -/
def from_hex (b : Nat) : Option Nat :=
  if 48 ≤ b ∧ b ≤ 57 then some (b - 48)
  else if 65 ≤ b ∧ b ≤ 70 then some (b - 65 + 10)
  else if 97 ≤ b ∧ b ≤ 102 then some (b - 97 + 10)
  else none

/-- `Parser::to_hex`, from `src/lib/src/parser.rs`. -/
def to_hex (b : Nat) : Option Nat :=
  if 16 ≤ b then none
  else if b ≤ 9 then some (b + 48)
  else some (b + 97 - 10)

/-- `Parser::to_hex_tuple`, from `src/lib/src/parser.rs`.  The source
unwraps; both nibbles are `< 16`, so `to_hex` always yields `some` here and
the `getD 0` default is never taken. -/
def to_hex_tuple (b : Nat) : Nat × Nat :=
  let h := (b >>> 4) &&& 15
  let l := b &&& 15
  ((to_hex h).getD 0, (to_hex l).getD 0)

/-- Model of `b.iter().position(|&v| v == 0)` used by `Parser::from_hexu`. -/
def position_of_zero : List Nat → Option Nat
  | [] => none
  | v :: rest => if v == 0 then some 0 else (position_of_zero rest).map (· + 1)

/-- The `for (i, byte) in b.iter().enumerate()` loop of `Parser::from_hexu`.
`result |= val << (shift_len - 4 * i)` is `usize` arithmetic: the shift
amount is masked by `% 64` and the shifted value truncated `% 2 ^ 64`,
which is what a release-mode left shift on a 64-bit `usize` does. -/
def from_hexu_loop : List Nat → Nat → Nat → Nat → Option Nat
  | [], _, result, _ => some result
  | byte :: rest, i, result, shiftLen =>
    match from_hex byte with
    | none => none
    | some val =>
      from_hexu_loop rest (i + 1)
        (result ||| (val <<< ((shiftLen - 4 * i) % 64)) % 2 ^ 64) shiftLen

/-- `Parser::from_hexu`, from `src/lib/src/parser.rs`: non-size-bounded hex
conversion, stopping at the first NUL.  `(b.len() - 1)` underflows in Rust
for the empty slice; the value is never used in that case (the loop body
does not run), so truncated `Nat` subtraction is adequate here. -/
def from_hexu (b : List Nat) : Option Nat :=
  let endIndex := (position_of_zero b).getD b.length
  let b := b.take endIndex
  let shiftLen := (b.length - 1) * 4
  from_hexu_loop b 0 0 shiftLen

/-- The `'cloop` of `Parser::add_chksm`: skip `'$'` (36), stop at `'#'`
(35), otherwise accumulate into a `u32` sum (wrap-around `% 2 ^ 32`). -/
def add_chksm_loop : List Nat → Nat → Nat
  | [], sum => sum
  | b :: rest, sum =>
    match b with
    | 36 => add_chksm_loop rest sum
    | 35 => sum
    | _ => add_chksm_loop rest ((sum + b) % 2 ^ 32)

/-- `Parser::add_chksm`, from `src/lib/src/parser.rs`. -/
def add_chksm (response_data : List Nat) : Nat :=
  add_chksm_loop response_data 0

/-- `Parser::chksm`, from `src/lib/src/parser.rs`. -/
def chksm (response_data : List Nat) : Nat :=
  add_chksm response_data % 256

/-- Parser state, from `src/lib/src/parser.rs` (`struct Parser`): the input
slice plus the cursor. -/
structure PState where
  packet : List Nat
  current : Nat
deriving DecidableEq, Repr

/-- `Parser::peek`: `packet.get(current).unwrap_or(&0)`. -/
def PState.peek (s : PState) : Nat :=
  s.packet.getD s.current 0

/-- The cursor increment `self.current += 1` shared by `advance`. -/
def PState.bump (s : PState) : PState :=
  ⟨s.packet, s.current + 1⟩

/-- `Parser::advance`: increment the cursor, then read (sentinel 0 at EOF). -/
def PState.advance (s : PState) : Nat × PState :=
  (s.bump.peek, s.bump)

/-- `Parser::is_at_end`: `current >= packet.len()`. -/
def PState.is_at_end (s : PState) : Bool :=
  s.packet.length ≤ s.current

/-- The byte test of `Parser::is_term`:
`matches!(peek, b' ' | b',' | b'#' | b';' | b':')`. -/
def is_term_byte (b : Nat) : Bool :=
  match b with
  | 32 | 44 | 35 | 59 | 58 => true
  | _ => false

/-- `Parser::is_term`, from `src/lib/src/parser.rs`. -/
def PState.is_term (s : PState) : Bool :=
  is_term_byte s.peek

/-- `Parser::is_match`: consume the current byte when it equals `c`. -/
def PState.is_match (s : PState) (c : Nat) : Bool × PState :=
  if s.peek = c then (true, s.bump) else (false, s)

/-- Rust range slicing `&packet[a..b]`: `none` models the bounds-check
panic raised when `a > b` or `b > packet.len()`. -/
def slice (packet : List Nat) (a b : Nat) : Option (List Nat) :=
  if a ≤ b ∧ b ≤ packet.length then some ((packet.drop a).take (b - a))
  else none

/-- The `while !is_at_end && !is_term` loop of `Parser::parse_token`,
with explicit fuel.  The fuel passed by `parse_token` bounds the number of
iterations (each iteration moves the cursor one byte toward the end), so
the fuel-exhausted branch coincides with the loop exit. -/
def parse_token_go : Nat → PState → PState
  | 0, s => s
  | fuel + 1, s =>
    if ¬s.is_at_end ∧ ¬s.is_term then parse_token_go fuel s.bump else s

/-- `Parser::parse_token`, from `src/lib/src/parser.rs`. -/
def parse_token (s : PState) : Option (List Nat) × PState :=
  let s1 := parse_token_go (s.packet.length - s.current) s
  (slice s.packet s.current s1.current, s1)

/-- The `while peek != b'#' && !is_at_end` loop of
`Parser::parse_until_end`, with explicit fuel (same convention as
`parse_token_go`). -/
def parse_until_end_go : Nat → PState → PState
  | 0, s => s
  | fuel + 1, s =>
    if s.peek ≠ 35 ∧ ¬s.is_at_end then parse_until_end_go fuel s.bump else s

/-- `Parser::parse_until_end`, from `src/lib/src/parser.rs`. -/
def parse_until_end (s : PState) : Option (List Nat) × PState :=
  let s1 := parse_until_end_go (s.packet.length - s.current) s
  (slice s.packet s.current s1.current, s1)

/-- `Parser::parse_name`, from `src/lib/src/parser.rs`.  In the one-byte
branch the source evaluates `&self.packet[self.current..self.current + 1]`
with no bounds check; `slice` returns `none` (panic) when the cursor sits
at or past the end of the packet. -/
def parse_name (s : PState) : Option (List Nat) × PState :=
  match s.peek with
  | 118 | 113 => parse_token s
  | _ => (slice s.packet s.current (s.current + 1), s)

/-- `Parser::next_token`, from `src/lib/src/parser.rs`.  The guard
guarantees the cursor is in bounds, so `parse_token`'s slice is always
`some` here and the source's `Some(token)` is exactly the returned option. -/
def next_token (s : PState) : Option (List Nat) × PState :=
  if ¬s.is_at_end then
    let (token, s1) := parse_token s
    (token, s1.bump)
  else (none, s)

/-- `Parser::verify_chksm`, from `src/lib/src/parser.rs`.  `(b0 << 4) | b1`
is `u8` arithmetic that cannot overflow (`b0 < 16`), and
`Self::chksm(..) as u8` is the identity since `chksm` is already `< 256`. -/
def verify_chksm (s : PState) : Bool × PState :=
  let b0 := from_hex s.peek
  let (c1, s1) := s.advance
  let b1 := from_hex c1
  match b0, b1 with
  | some v0, some v1 => (((v0 <<< 4) ||| v1) == chksm s.packet, s1)
  | _, _ => (false, s1)

/-- `Parser::parse_packet`, from `src/lib/src/parser.rs`, parameterized by
the registry (`cmds: &dyn SupportedCommands`).  `none` marks a panic of the
source (an out-of-bounds slice inside `parse_name` / `parse_until_end`). -/
def parse_packet (cmds : List Nat → Option (List Nat) → Parsed) (s : PState) :
    Option (Parsed × PState) :=
  let (m1, s1) := s.is_match 45
  if m1 then some (⟨some .RetransmitLast, none⟩, s1) else
  let (m2, s2) := s1.is_match 43
  if m2 then some (⟨some .AcknowledgeLast, none⟩, s2) else
  let (m3, s3) := s2.is_match 36
  if ¬m3 then some (retransmit .UnexpectedIntroduction, s3) else
  match parse_name s3 with
  | (none, _) => none
  | (some name, s4) =>
    let argsParsed : Option (Option (List Nat) × PState) :=
      if s4.peek ≠ 35 then
        let s5 := s4.bump
        match parse_until_end s5 with
        | (none, _) => none
        | (some a, s6) => some (some a, s6)
      else some (none, s4)
    match argsParsed with
    | none => none
    | some (args, s6) =>
      let (m4, s7) := s6.is_match 35
      if ¬m4 then some (retransmit .NotTerminated, s7) else
      let (ok, s8) := verify_chksm s7
      if ¬ok then some (retransmit .InvalidChecksum, s8) else
      let s9 := s8.bump
      some (cmds name args, s9)

/-- The provided default of `SupportedCommands::commands`, from
`src/lib/src/command.rs`: `?` (63), `g` (103), `G` (71), `m` (109),
`M` (77), everything else `NotImplemented`; always wrapped in
`Parsed::ack`. -/
def default_commands (name : List Nat) (args : Option (List Nat)) : Parsed :=
  let args := args.getD []
  match name with
  | [63] => Parsed.ack (some .Reason)
  | [103] => Parsed.ack (some .ReadRegister)
  | [71] => Parsed.ack (some (.WriteRegister args))
  | [109] => Parsed.ack (some (.ReadMemory args))
  | [77] => Parsed.ack (some (.WriteMemory args))
  | _ => Parsed.ack (some .NotImplemented)

/-- Modelled from the spec: the checksum update rule of the Sink (§4.2 of
the specification); the crate's `stream.rs` is not among the provided
sources.  `write` updates the running checksum by `sum ← (sum + byte) mod
2³²` except for `'$'` (36) and `'#'` (35), which are excluded. -/
def chk_step (acc b : Nat) : Nat :=
  if b = 36 ∨ b = 35 then acc else (acc + b) % 2 ^ 32

/-- Checksum accumulation over a byte list, folding `chk_step`. -/
def chk_fold (acc : Nat) (l : List Nat) : Nat :=
  l.foldl chk_step acc

/-- Modelled from the spec: the Sink (§4.2); the crate's `stream.rs` (the
`Stream` trait and its buffer implementation) is not among the provided
sources.  The state is the sequence of bytes written since the last reset
plus the running checksum.  This models the always-accepting sink (an
unbounded buffer, or one whose drain callback accepts), so `write` never
fails; `pos` is the number of bytes written. -/
structure Strm where
  buf : List Nat
  chksm_acc : Nat
deriving DecidableEq, Repr

/-- Modelled from the spec: `Sink::write` (§4.2) appends one byte, updates
the running checksum by `chk_step` and reports one byte written. -/
def Strm.write (s : Strm) (b : Nat) : Except Errors Nat × Strm :=
  (.ok 1, ⟨s.buf ++ [b], chk_step s.chksm_acc b⟩)

/-- Modelled from the spec: `Sink::reset` (§4.2), cursor to zero and
checksum cleared. -/
def Strm.reset (_ : Strm) : Strm := ⟨[], 0⟩

/-- Modelled from the spec: `Sink::pos` (§4.2). -/
def Strm.pos (s : Strm) : Nat := s.buf.length

/-- Modelled from the spec: `Sink::checksum` (§4.2). -/
def Strm.chksm (s : Strm) : Nat := s.chksm_acc

/-- `ResponseWriter::write_force`, from `src/lib/src/command.rs`. -/
def rw_write_force (s : Strm) (b : Nat) : Except Errors Nat × Strm :=
  s.write b

/-- `ResponseWriter::escape`, from `src/lib/src/command.rs`. -/
def escape (b : Nat) : Nat := b ^^^ 32

/-- The set of bytes `ResponseWriter::write` always escapes, as a Boolean
predicate (`'}'`, `'$'`, `'#'`, `'*'`). -/
def needs_escape (b : Nat) : Bool :=
  b == 125 || b == 36 || b == 35 || b == 42

mutual

/-- `ResponseWriter::write`, from `src/lib/src/command.rs`: `'}'` (125),
`'$'` (36), `'#'` (35) and `'*'` (42) must always be escaped (the source's
or-pattern is expanded into one arm per literal so the termination measure
sees the matched byte). -/
def rw_write (s : Strm) (b : Nat) : Except Errors Nat × Strm :=
  match b with
  | 125 => rw_write_escape s 125
  | 36 => rw_write_escape s 36
  | 35 => rw_write_escape s 35
  | 42 => rw_write_escape s 42
  | _ => rw_write_force s b
termination_by (if needs_escape b then 2 else 0)
decreasing_by all_goals simp [needs_escape, escape]

/-- `ResponseWriter::write_escape`, from `src/lib/src/command.rs`: emit
`'}'`, then hand `byte XOR 0x20` back to the escape-aware `write`. -/
def rw_write_escape (s : Strm) (b : Nat) : Except Errors Nat × Strm :=
  match rw_write_force s 125 with
  | (.error e, s1) => (.error e, s1)
  | (.ok n1, s1) =>
    match rw_write s1 (escape b) with
    | (.error e, s2) => (.error e, s2)
    | (.ok n2, s2) => (.ok (n1 + n2), s2)
termination_by (if needs_escape (escape b) then 3 else 1)
decreasing_by
  all_goals cases h : needs_escape (escape b) <;> simp [h]

end

/-- `ResponseWriter::start`, from `src/lib/src/command.rs`. -/
def rw_start (s : Strm) : Except Errors Nat × Strm :=
  rw_write_force s 36

/-- `ResponseWriter::write_hex`, from `src/lib/src/command.rs`. -/
def rw_write_hex (s : Strm) (byte : Nat) : Except Errors Nat × Strm :=
  let t := to_hex_tuple byte
  match rw_write_force s t.1 with
  | (.error e, s1) => (.error e, s1)
  | (.ok n1, s1) =>
    match rw_write_force s1 t.2 with
    | (.error e, s2) => (.error e, s2)
    | (.ok n2, s2) => (.ok (n1 + n2), s2)

/-- `ResponseWriter::end`, from `src/lib/src/command.rs`: emit `'#'`, then
the sink checksum `% 256` as two hex digits. -/
def rw_end (s : Strm) : Except Errors Nat × Strm :=
  match rw_write_force s 35 with
  | (.error e, s1) => (.error e, s1)
  | (.ok n1, s1) =>
    let c := s1.chksm % 256
    match rw_write_hex s1 c with
    | (.error e, s2) => (.error e, s2)
    | (.ok n2, s2) => (.ok (n1 + n2), s2)

/-- The `for byte in bytes` loop of `ResponseWriter::write_all`, carrying
the accumulated size. -/
def rw_write_all_go : Strm → List Nat → Nat → Except Errors Nat × Strm
  | s, [], size => (.ok size, s)
  | s, b :: rest, size =>
    match rw_write s b with
    | (.error e, s1) => (.error e, s1)
    | (.ok n, s1) => rw_write_all_go s1 rest (size + n)

/-- `ResponseWriter::write_all`, from `src/lib/src/command.rs`. -/
def rw_write_all (s : Strm) (bytes : List Nat) : Except Errors Nat × Strm :=
  rw_write_all_go s bytes 0

/-- `ResponseWriter::ok`, from `src/lib/src/command.rs`: emit `"OK"`. -/
def rw_ok (s : Strm) : Except Errors Nat × Strm :=
  rw_write_all s [79, 75]

/-- `ResponseWriter::error`, from `src/lib/src/command.rs`: emit `"E00"`. -/
def rw_error (s : Strm) (_error : Errors) : Except Errors Nat × Strm :=
  rw_write_all s [69, 48, 48]

/-- The `Target` capability set, from `src/lib/src/target.rs`, modelled as
a record of pure functions over an embedder-chosen state type `σ`
(mutating methods return the successor state alongside the Rust result). -/
structure Target (σ : Type) where
  reason : σ → List Nat
  rd_registers : σ → Strm → Except Errors Nat × Strm
  wr_registers : σ → List Nat → Except Errors Nat × σ
  rd_memory : σ → Nat → Nat → Strm → Except Errors Nat × Strm
  wr_memory : σ → Nat → List Nat → Except Errors Nat × σ

/-- `Retransmit::response`, from `src/lib/src/command.rs`. -/
def retransmit_response (s : Strm) : Except Errors Nat × Strm :=
  rw_write s.reset 45

/-- `Acknowledge::response`, from `src/lib/src/command.rs`. -/
def acknowledge_response (s : Strm) : Except Errors Nat × Strm :=
  rw_write s.reset 43

/-- `NotImplemented::response`, from `src/lib/src/command.rs`: reset, then
`start`, then `end` (the empty framed packet). -/
def not_implemented_response (s : Strm) : Except Errors Nat × Strm :=
  let s0 := s.reset
  match rw_start s0 with
  | (.error e, s1) => (.error e, s1)
  | (.ok n1, s1) =>
    match rw_end s1 with
    | (.error e, s2) => (.error e, s2)
    | (.ok n2, s2) => (.ok (n1 + n2), s2)

/-- `ReasonCommand::response`, from `src/lib/src/basic/required.rs`. -/
def reason_response {σ : Type} (t : Target σ) (s : Strm) (ctx : σ) :
    Except Errors Nat × Strm :=
  let s0 := s.reset
  match rw_start s0 with
  | (.error e, s1) => (.error e, s1)
  | (.ok _, s1) =>
    match rw_write_all s1 (t.reason ctx) with
    | (.error e, s2) => (.error e, s2)
    | (.ok _, s2) => rw_end s2

/-- `ReadRegistersCommand::response`, from `src/lib/src/basic/required.rs`. -/
def read_registers_response {σ : Type} (t : Target σ) (s : Strm) (ctx : σ) :
    Except Errors Nat × Strm :=
  let s0 := s.reset
  match rw_start s0 with
  | (.error e, s1) => (.error e, s1)
  | (.ok _, s1) =>
    match t.rd_registers ctx s1 with
    | (.error e, s2) => (.error e, s2)
    | (.ok _, s2) =>
      match rw_end s2 with
      | (.error e, s3) => (.error e, s3)
      | (.ok _, s3) => (.ok s3.pos, s3)

/-- `WriteRegistersCommand::response`, from `src/lib/src/basic/required.rs`. -/
def write_registers_response {σ : Type} (t : Target σ) (fields : List Nat)
    (s : Strm) (ctx : σ) : Except Errors Nat × Strm × σ :=
  let s0 := s.reset
  match rw_start s0 with
  | (.error e, s1) => (.error e, s1, ctx)
  | (.ok _, s1) =>
    let (r, ctx1) := t.wr_registers ctx fields
    let step : Except Errors Nat × Strm :=
      match r with
      | .ok _ => rw_ok s1
      | .error err => rw_error s1 err
    match step with
    | (.error e, s2) => (.error e, s2, ctx1)
    | (.ok _, s2) =>
      match rw_end s2 with
      | (.error e, s3) => (.error e, s3, ctx1)
      | (.ok _, s3) => (.ok s3.pos, s3, ctx1)

/-- `ReadMemoryCommand::response`, from `src/lib/src/basic/required.rs`. -/
def read_memory_response {σ : Type} (t : Target σ) (fields : List Nat)
    (s : Strm) (ctx : σ) : Except Errors Nat × Strm :=
  let s0 := s.reset
  match rw_start s0 with
  | (.error e, s1) => (.error e, s1)
  | (.ok _, s1) =>
    let p0 : PState := ⟨fields, 0⟩
    let (addrTok, p1) := next_token p0
    let (sizeTok, _p2) := next_token p1
    match addrTok, sizeTok with
    | some addrTok, some sizeTok =>
      match from_hexu addrTok, from_hexu sizeTok with
      | some addr, some size =>
        match t.rd_memory ctx addr size s1 with
        | (.error e, s2) => (.error e, s2)
        | (.ok _, s2) =>
          match rw_end s2 with
          | (.error e, s3) => (.error e, s3)
          | (.ok _, s3) => (.ok s3.pos, s3)
      | _, _ => (.error .BadNumber, s1)
    | _, _ => (.error .InsufficientArguments, s1)

/-- `WriteMemoryCommand::response`, from `src/lib/src/basic/required.rs`. -/
def write_memory_response {σ : Type} (t : Target σ) (fields : List Nat)
    (s : Strm) (ctx : σ) : Except Errors Nat × Strm × σ :=
  let s0 := s.reset
  match rw_start s0 with
  | (.error e, s1) => (.error e, s1, ctx)
  | (.ok _, s1) =>
    let p0 : PState := ⟨fields, 0⟩
    let (addrTok, p1) := next_token p0
    let (sizeTok, p2) := next_token p1
    let (bytesTok, _p3) := next_token p2
    match addrTok, sizeTok, bytesTok with
    | some addrTok, some sizeTok, some bytes =>
      match from_hexu addrTok, from_hexu sizeTok with
      | some addr, some size =>
        if bytes.length / 2 ≠ size then (.error .LengthMismatch, s1, ctx)
        else
          let (r, ctx1) := t.wr_memory ctx addr bytes
          match r with
          | .error e => (.error e, s1, ctx1)
          | .ok _ =>
            match rw_ok s1 with
            | (.error e, s2) => (.error e, s2, ctx1)
            | (.ok _, s2) =>
              match rw_end s2 with
              | (.error e, s3) => (.error e, s3, ctx1)
              | (.ok _, s3) => (.ok s3.pos, s3, ctx1)
      | _, _ => (.error .BadNumber, s1, ctx)
    | _, _, _ => (.error .InsufficientArguments, s1, ctx)

/-- `Commands::response`, from `src/lib/src/command.rs`: dispatch to the
variant's reply. -/
def commands_response {σ : Type} (t : Target σ) (c : Commands) (stream : Strm)
    (ctx : σ) : Except Errors Nat × Strm × σ :=
  match c with
  | .NoCommand | .Unsupported | .RetransmitLast | .AcknowledgeLast =>
    (.ok 0, stream, ctx)
  | .NotImplemented =>
    let (r, s) := not_implemented_response stream
    (r, s, ctx)
  | .Retransmit _ =>
    let (r, s) := retransmit_response stream
    (r, s, ctx)
  | .Acknowledge =>
    let (r, s) := acknowledge_response stream
    (r, s, ctx)
  | .Reason =>
    let (r, s) := reason_response t stream ctx
    (r, s, ctx)
  | .ReadRegister =>
    let (r, s) := read_registers_response t stream ctx
    (r, s, ctx)
  | .WriteRegister fields => write_registers_response t fields stream ctx
  | .ReadMemory fields =>
    let (r, s) := read_memory_response t fields stream ctx
    (r, s, ctx)
  | .WriteMemory fields => write_memory_response t fields stream ctx

/-! ## Helper lemmas -/

theorem from_hex_lt {b v : Nat} (h : from_hex b = some v) : v < 16 := by
  unfold from_hex at h
  split_ifs at h <;> simp_all <;> omega

theorem from_hex_ne_zero {b v : Nat} (h : from_hex b = some v) : b ≠ 0 := by
  unfold from_hex at h
  split_ifs at h <;> simp_all <;> omega

theorem lor_sixteen {v0 v1 : Nat} (h : v1 < 16) :
    (v0 <<< 4) ||| v1 = 16 * v0 + v1 := by
  have h16 : (16 : Nat) = 2 ^ 4 := by norm_num
  rw [Nat.shiftLeft_eq, Nat.mul_comm, h16, ← Nat.mul_add_lt_is_or (by omega) v0]

/-! ## C1: totality of `parse_packet` -/

/-- C1: the claim states that `Parser::parse_packet` is total on every
input byte slice and in particular never panics when the cursor reaches
the end of the slice before a one-byte command name is read.  The code
violates this: on the single-byte input `"$"` (byte 36), `parse_name`
evaluates `&self.packet[self.current..self.current + 1]` with the cursor
already at the end of the slice, an out-of-bounds range that panics
(modelled by `none`). -/
theorem parse_packet_panics_on_lone_dollar :
    parse_packet default_commands ⟨[36], 0⟩ = none := by decide

/-! ## C3: checksum characterization -/

theorem add_chksm_loop_mod (l : List Nat) :
    ∀ sum : Nat,
      add_chksm_loop l sum % 256 =
        (sum + ((l.takeWhile (fun b => b != 35)).filter (fun b => b != 36)).sum) % 256 := by
  induction l with
  | nil => intro sum; simp [add_chksm_loop]
  | cons b rest ih =>
    intro sum
    by_cases h36 : b = 36
    · subst h36
      rw [show add_chksm_loop (36 :: rest) sum = add_chksm_loop rest sum from rfl]
      simp [List.takeWhile_cons, List.filter_cons, ih sum]
    · by_cases h35 : b = 35
      · subst h35
        rw [show add_chksm_loop (35 :: rest) sum = sum from rfl]
        simp [List.takeWhile_cons]
      · have hstep : add_chksm_loop (b :: rest) sum =
            add_chksm_loop rest ((sum + b) % 2 ^ 32) := by
          rw [add_chksm_loop.eq_def]
          split <;> simp_all
        rw [hstep, ih]
        have h1 : (b :: rest).takeWhile (fun b => b != 35) =
            b :: rest.takeWhile (fun b => b != 35) := by
          simp [List.takeWhile_cons, h35]
        rw [h1, List.filter_cons_of_pos (by simp [h36]), List.sum_cons]
        have hmod : (sum + b) % 2 ^ 32 % 256 = (sum + b) % 256 :=
          Nat.mod_mod_of_dvd _ (by norm_num)
        omega

/-- C3: `chksm s` is the sum of the bytes of `s`, excluding every `'$'`
(36), truncated at (exclusive of) the first `'#'` (35), reduced mod 256. -/
theorem chksm_spec (s : List Nat) :
    chksm s =
      ((s.takeWhile (fun b => b != 35)).filter (fun b => b != 36)).sum % 256 := by
  unfold chksm add_chksm
  simpa using add_chksm_loop_mod s 0

/-! ## C8: nibble round-trip -/

/-- C8: converting a nibble to its ASCII hex character and back is the
identity; `to_hex` maps `0..9` to `'0'..'9'` and `10..15` to lowercase
`'a'..'f'` and fails for values ≥ 16; `from_hex` accepts the uppercase
letters as well as the lowercase ones. -/
theorem nibble_roundtrip :
    (∀ b : Nat, (to_hex (b % 16)).bind from_hex = some (b % 16))
    ∧ (∀ n : Nat, 16 ≤ n → to_hex n = none)
    ∧ (∀ n : Nat, n < 10 → to_hex n = some (n + 48))
    ∧ (∀ n : Nat, 10 ≤ n → n < 16 → to_hex n = some (n + 87))
    ∧ (∀ k : Nat, k < 6 →
        from_hex (97 + k) = some (10 + k) ∧ from_hex (65 + k) = some (10 + k)) := by
  refine ⟨?_, ?_, ?_, ?_, ?_⟩
  · intro b
    have h : b % 16 < 16 := Nat.mod_lt _ (by norm_num)
    revert h
    generalize b % 16 = r
    revert r
    decide
  · intro n h
    unfold to_hex
    rw [if_pos h]
  · intro n h
    unfold to_hex
    rw [if_neg (by omega), if_pos (by omega)]
  · intro n h1 h2
    unfold to_hex
    rw [if_neg (by omega), if_neg (by omega), show n + 97 - 10 = n + 87 by omega]
  · intro k h
    interval_cases k <;> exact ⟨by decide, by decide⟩

/-- Witness for C8 at concrete inputs. -/
theorem nibble_roundtrip_witness :
    (to_hex (167 % 16)).bind from_hex = some (167 % 16)
    ∧ to_hex 16 = none
    ∧ to_hex 6 = some 54
    ∧ to_hex 15 = some 102
    ∧ from_hex 97 = some 10 ∧ from_hex 65 = some 10 :=
  ⟨nibble_roundtrip.1 167,
   nibble_roundtrip.2.1 16 (by decide),
   nibble_roundtrip.2.2.1 6 (by decide),
   nibble_roundtrip.2.2.2.1 15 (by decide) (by decide),
   (nibble_roundtrip.2.2.2.2 0 (by decide)).1,
   (nibble_roundtrip.2.2.2.2 0 (by decide)).2⟩

/-! ## C5: the default command registry -/

/-- C5: the default `SupportedCommands::commands` maps `?` to `Reason`,
`g` to `ReadRegister`, `G` to `WriteRegister args`, `m` to
`ReadMemory args`, `M` to `WriteMemory args`, and every other name to
`NotImplemented`; the response element is always `Acknowledge`. -/
theorem default_commands_spec :
    (∀ args, default_commands [63] args = Parsed.ack (some .Reason))
    ∧ (∀ args, default_commands [103] args = Parsed.ack (some .ReadRegister))
    ∧ (∀ args, default_commands [71] args =
        Parsed.ack (some (.WriteRegister (args.getD []))))
    ∧ (∀ args, default_commands [109] args =
        Parsed.ack (some (.ReadMemory (args.getD []))))
    ∧ (∀ args, default_commands [77] args =
        Parsed.ack (some (.WriteMemory (args.getD []))))
    ∧ (∀ name args, name ≠ [63] → name ≠ [103] → name ≠ [71] →
        name ≠ [109] → name ≠ [77] →
        default_commands name args = Parsed.ack (some .NotImplemented))
    ∧ (∀ name args, (default_commands name args).response = some .Acknowledge) := by
  refine ⟨fun args => rfl, fun args => rfl, fun args => rfl, fun args => rfl,
    fun args => rfl, ?_, ?_⟩
  · intro name args h1 h2 h3 h4 h5
    unfold default_commands
    split <;> simp_all
  · intro name args
    unfold default_commands
    split <;> rfl

/-- Witness for C5's unrecognized-name case at the concrete name `"x"`. -/
theorem default_commands_spec_witness :
    default_commands [120] none = Parsed.ack (some .NotImplemented) :=
  default_commands_spec.2.2.2.2.2.1 [120] none (by decide) (by decide)
    (by decide) (by decide) (by decide)

/-! ## C7: the `NotImplemented` reply -/

/-- C7: for every sink state, the `NotImplemented` reply writes exactly
the four bytes `'$' '#' '0' '0'` and returns 4; the trailing `00` is the
checksum of the empty payload (`chksm [] = 0`). -/
theorem not_implemented_emits_empty_packet :
    (∀ s : Strm, not_implemented_response s = (.ok 4, ⟨[36, 35, 48, 48], 96⟩))
    ∧ chksm [] = 0 := by
  refine ⟨fun s => ?_, rfl⟩
  unfold not_implemented_response rw_start rw_end rw_write_hex rw_write_force
    Strm.write Strm.reset to_hex_tuple Strm.chksm chk_step to_hex
  norm_num

/-! ## C10: the `-` and `+` control bytes -/

/-- C10: an input starting with `'-'` (45) parses to the pair
`(RetransmitLast, no command)` with the cursor advanced past the byte, and
the reply of `RetransmitLast` writes zero bytes and returns 0; dually for
`'+'` (43) and `AcknowledgeLast`. -/
theorem minus_plus_parse_and_reply :
    (∀ (cmds : List Nat → Option (List Nat) → Parsed) (rest : List Nat),
      parse_packet cmds ⟨45 :: rest, 0⟩ =
        some (⟨some .RetransmitLast, none⟩, ⟨45 :: rest, 1⟩))
    ∧ (∀ (cmds : List Nat → Option (List Nat) → Parsed) (rest : List Nat),
      parse_packet cmds ⟨43 :: rest, 0⟩ =
        some (⟨some .AcknowledgeLast, none⟩, ⟨43 :: rest, 1⟩))
    ∧ (∀ (σ : Type) (t : Target σ) (s : Strm) (ctx : σ),
      commands_response t .RetransmitLast s ctx = (.ok 0, s, ctx))
    ∧ (∀ (σ : Type) (t : Target σ) (s : Strm) (ctx : σ),
      commands_response t .AcknowledgeLast s ctx = (.ok 0, s, ctx)) :=
  ⟨fun _ _ => rfl, fun _ _ => rfl, fun _ _ _ _ => rfl, fun _ _ _ _ => rfl⟩

/-! ## C2: `from_hexu` -/

theorem take_position_eq_takeWhile (b : List Nat) :
    b.take ((position_of_zero b).getD b.length) =
      b.takeWhile (fun v => v != 0) := by
  induction b with
  | nil => rfl
  | cons v r ih =>
    by_cases hv : v = 0
    · subst hv
      simp [position_of_zero, List.takeWhile_cons]
    · rw [show position_of_zero (v :: r) = (position_of_zero r).map (· + 1) by
        simp [position_of_zero, hv]]
      rw [List.takeWhile_cons_of_pos (by simp [hv])]
      cases hp : position_of_zero r with
      | none =>
        rw [hp] at ih
        simp only [hp, Option.map_none', Option.getD_none, List.length_cons]
        simp only [Option.getD_none] at ih
        rw [List.take_succ_cons, List.take_length, ← ih, List.take_length]
      | some k =>
        rw [hp] at ih
        simp only [hp, Option.map_some', Option.getD_some] at ih ⊢
        rw [List.take_succ_cons, ih]

theorem position_of_zero_eq_none {l : List Nat} (h : ∀ x ∈ l, x ≠ 0) :
    position_of_zero l = none := by
  induction l with
  | nil => rfl
  | cons v r ih =>
    have hv : v ≠ 0 := h v (by simp)
    simp [position_of_zero, hv, ih fun x hx => h x (by simp [hx])]

theorem from_hexu_loop_none {ds : List Nat} (h : ∃ d ∈ ds, from_hex d = none) :
    ∀ i res sl, from_hexu_loop ds i res sl = none := by
  induction ds with
  | nil => simp at h
  | cons d rest ih =>
    intro i res sl
    obtain ⟨x, hx, hnone⟩ := h
    unfold from_hexu_loop
    cases hd : from_hex d with
    | none => rfl
    | some v =>
      rcases List.mem_cons.mp hx with heq | hmem
      · subst heq; rw [hd] at hnone; exact absurd hnone (by simp)
      · exact ih ⟨x, hmem, hnone⟩ _ _ _

theorem foldl_hex_acc (vs : List Nat) :
    ∀ a : Nat,
      vs.foldl (fun x v => 16 * x + v) a =
        a * 16 ^ vs.length + vs.foldl (fun x v => 16 * x + v) 0 := by
  induction vs with
  | nil => intro a; simp
  | cons v vs ih =>
    intro a
    simp only [List.foldl_cons, List.length_cons]
    rw [ih (16 * a + v), ih (16 * 0 + v)]
    ring

theorem from_hexu_loop_be (ds : List Nat) :
    ∀ (i r n : Nat) (vs : List Nat),
      i + ds.length = n → n ≤ 16 → ds.map from_hex = vs.map some →
      r < 2 ^ (4 * i) →
      from_hexu_loop ds i (r * 2 ^ (4 * (n - i))) ((n - 1) * 4) =
        some (r * 2 ^ (4 * (n - i)) + vs.foldl (fun a v => 16 * a + v) 0) := by
  induction ds with
  | nil =>
    intro i r n vs hlen _ hmap _
    cases vs with
    | nil =>
      simp only [List.length_nil, Nat.add_zero] at hlen
      subst hlen
      simp [from_hexu_loop]
    | cons v vs => simp at hmap
  | cons d rest ih =>
    intro i r n vs hlen hn hmap hr
    cases vs with
    | nil => simp at hmap
    | cons v vs' =>
      simp only [List.map_cons, List.cons.injEq] at hmap
      obtain ⟨hd, hmap'⟩ := hmap
      have hvlt : v < 16 := from_hex_lt hd
      have hlen' : (i + 1) + rest.length = n := by
        simp only [List.length_cons] at hlen; omega
      have hiltn : i < n := by omega
      set L := rest.length with hL
      have hni : n - i = L + 1 := by omega
      have hsl : (n - 1) * 4 - 4 * i = 4 * L := by omega
      have hLle : 4 * L ≤ 60 := by omega
      have hpow : (0 : Nat) < 2 ^ (4 * L) := Nat.pos_pow_of_pos _ (by norm_num)
      have hvb : v * 2 ^ (4 * L) < 2 ^ (4 * L + 4) := by
        calc v * 2 ^ (4 * L) < 16 * 2 ^ (4 * L) :=
              mul_lt_mul_of_pos_right hvlt hpow
          _ = 2 ^ (4 * L + 4) := by rw [Nat.pow_add]; ring
      have hshift : (v <<< ((((n - 1) * 4) - 4 * i) % 64)) % 2 ^ 64 =
          v * 2 ^ (4 * L) := by
        rw [hsl, Nat.mod_eq_of_lt (show 4 * L < 64 by omega), Nat.shiftLeft_eq]
        exact Nat.mod_eq_of_lt (lt_of_lt_of_le hvb
          (Nat.pow_le_pow_right (by norm_num) (by omega)))
      rw [show from_hexu_loop (d :: rest) i (r * 2 ^ (4 * (n - i)))
            ((n - 1) * 4) =
          from_hexu_loop rest (i + 1)
            ((r * 2 ^ (4 * (n - i))) |||
              (v <<< ((((n - 1) * 4) - 4 * i) % 64)) % 2 ^ 64)
            ((n - 1) * 4) from by
        simp only [from_hexu_loop, hd]]
      rw [hshift]
      have hres : r * 2 ^ (4 * (n - i)) ||| v * 2 ^ (4 * L) =
          (16 * r + v) * 2 ^ (4 * L) := by
        rw [hni]
        calc r * 2 ^ (4 * (L + 1)) ||| v * 2 ^ (4 * L)
            = 2 ^ (4 * L + 4) * r ||| v * 2 ^ (4 * L) := by
              rw [show 4 * (L + 1) = 4 * L + 4 from by ring]; ring_nf
          _ = 2 ^ (4 * L + 4) * r + v * 2 ^ (4 * L) :=
              (Nat.mul_add_lt_is_or hvb r).symm
          _ = (16 * r + v) * 2 ^ (4 * L) := by rw [Nat.pow_add]; ring
      rw [hres]
      have hr' : 16 * r + v < 2 ^ (4 * (i + 1)) := by
        have : r + 1 ≤ 2 ^ (4 * i) := hr
        calc 16 * r + v < 16 * r + 16 := by omega
          _ = 16 * (r + 1) := by ring
          _ ≤ 16 * 2 ^ (4 * i) := by omega
          _ = 2 ^ (4 * (i + 1)) := by
              rw [show 4 * (i + 1) = 4 * i + 4 from by ring, Nat.pow_add]; ring
      have := ih (i + 1) (16 * r + v) n vs' hlen' hn hmap' hr'
      rw [show n - (i + 1) = L from by omega] at this
      rw [this]
      congr 1
      have hlvs : vs'.length = L := by
        have h := congrArg List.length hmap'
        simp at h
        omega
      rw [List.foldl_cons, foldl_hex_acc vs' (16 * 0 + v), hlvs, hni]
      have h16L : (16 : Nat) ^ L = 2 ^ (4 * L) := by
        rw [show (16 : Nat) = 2 ^ 4 from by norm_num, ← Nat.pow_mul]
      rw [show 4 * (L + 1) = 4 * L + 4 from by ring, Nat.pow_add, h16L]
      ring

/-- C2: `from_hexu` parses hex with big-endian nibble order (the first
byte is the most-significant nibble), stops at the first NUL, is defined
on every input (the empty slice yields 0), and yields `none` on a non-hex
byte occurring before the first NUL. -/
theorem from_hexu_spec :
    from_hexu [] = some 0
    ∧ (∀ b : List Nat, from_hexu b = from_hexu (b.takeWhile (fun v => v != 0)))
    ∧ (∀ ds vs : List Nat, ds.map from_hex = vs.map some → ds.length ≤ 16 →
        from_hexu ds = some (vs.foldl (fun a v => 16 * a + v) 0))
    ∧ (∀ (b : List Nat) (d : Nat), d ∈ b.takeWhile (fun v => v != 0) →
        from_hex d = none → from_hexu b = none) := by
  refine ⟨rfl, ?_, ?_, ?_⟩
  · intro b
    have hnz : ∀ x ∈ b.takeWhile (fun v => v != 0), x ≠ 0 := by
      intro x hx
      have := List.mem_takeWhile_imp hx
      simpa using this
    simp only [from_hexu]
    rw [take_position_eq_takeWhile, position_of_zero_eq_none hnz,
      Option.getD_none, List.take_length]
  · intro ds vs hmap hlen
    have hnz : ∀ x ∈ ds, x ≠ 0 := by
      intro x hx
      have hmem : from_hex x ∈ vs.map some := by
        rw [← hmap]; exact List.mem_map_of_mem from_hex hx
      obtain ⟨v, _, hv⟩ := List.mem_map.mp hmem
      exact from_hex_ne_zero hv.symm
    simp only [from_hexu]
    rw [position_of_zero_eq_none hnz, Option.getD_none, List.take_length]
    have := from_hexu_loop_be ds 0 0 ds.length vs (by omega) hlen hmap
      (by norm_num)
    simpa using this
  · intro b d hmem hnone
    simp only [from_hexu]
    rw [take_position_eq_takeWhile]
    exact from_hexu_loop_none ⟨d, hmem, hnone⟩ _ _ _

/-- Witness for C2 at concrete inputs: `"AB"` parses to 0xAB and `"AG"`
fails on the non-hex byte `'G'`. -/
theorem from_hexu_spec_witness :
    from_hexu [65, 66] = some 171 ∧ from_hexu [65, 71] = none := by
  constructor
  · have h := from_hexu_spec.2.2.1 [65, 66] [10, 11] (by decide) (by decide)
    simpa using h
  · exact from_hexu_spec.2.2.2 [65, 71] 71 (by decide) (by decide)

/-! ## C6: the escape-aware writer -/

/-- The wire encoding of one payload byte under the escape rule: a byte in
`{ '}', '$', '#', '*' }` becomes `'}'` followed by the byte XOR 0x20,
every other byte is emitted verbatim. -/
def escEnc (b : Nat) : List Nat :=
  if needs_escape b then [125, b ^^^ 32] else [b]

/-- The wire encoding of a payload byte sequence. -/
def escEncList : List Nat → List Nat
  | [] => []
  | b :: rest => escEnc b ++ escEncList rest

/-- The inverse rule: `'}'` un-escapes the following byte by XOR 0x20. -/
def unescape : List Nat → List Nat
  | [] => []
  | 125 :: b :: rest => (b ^^^ 32) :: unescape rest
  | b :: rest => b :: unescape rest

theorem rw_write_eq (s : Strm) (b : Nat) :
    rw_write s b =
      (.ok (escEnc b).length,
       ⟨s.buf ++ escEnc b, chk_fold s.chksm_acc (escEnc b)⟩) := by
  by_cases h125 : b = 125
  · subst h125
    simp [rw_write, rw_write_escape, rw_write_force, Strm.write, escape,
      escEnc, needs_escape, chk_fold, chk_step]
  · by_cases h36 : b = 36
    · subst h36
      simp [rw_write, rw_write_escape, rw_write_force, Strm.write, escape,
        escEnc, needs_escape, chk_fold, chk_step]
    · by_cases h35 : b = 35
      · subst h35
        simp [rw_write, rw_write_escape, rw_write_force, Strm.write, escape,
          escEnc, needs_escape, chk_fold, chk_step]
      · by_cases h42 : b = 42
        · subst h42
          simp [rw_write, rw_write_escape, rw_write_force, Strm.write, escape,
            escEnc, needs_escape, chk_fold, chk_step]
        · rw [show rw_write s b = rw_write_force s b from by
            rw [rw_write.eq_def]; split <;> simp_all]
          simp [rw_write_force, Strm.write, escEnc, needs_escape, h125, h36,
            h35, h42, chk_fold, chk_step]

theorem rw_write_all_go_eq (p : List Nat) :
    ∀ (s : Strm) (k : Nat),
      rw_write_all_go s p k =
        (.ok (k + (escEncList p).length),
         ⟨s.buf ++ escEncList p, chk_fold s.chksm_acc (escEncList p)⟩) := by
  induction p with
  | nil => intro s k; simp [rw_write_all_go, escEncList, chk_fold]
  | cons b rest ih =>
    intro s k
    rw [show rw_write_all_go s (b :: rest) k =
        (match rw_write s b with
         | (.error e, s1) => (.error e, s1)
         | (.ok n, s1) => rw_write_all_go s1 rest (k + n)) from by
      simp [rw_write_all_go]]
    rw [rw_write_eq]
    simp only []
    rw [ih]
    simp only [escEncList, List.append_assoc, List.length_append]
    refine congrArg₂ Prod.mk (by simp [Nat.add_assoc]) ?_
    have : chk_fold (chk_fold s.chksm_acc (escEnc b)) (escEncList rest) =
        chk_fold s.chksm_acc (escEnc b ++ escEncList rest) := by
      simp [chk_fold, List.foldl_append]
    rw [this]

theorem unescape_cons_ne {b : Nat} (hb : b ≠ 125) (t : List Nat) :
    unescape (b :: t) = b :: unescape t := by
  rw [unescape.eq_def]
  split <;> simp_all

theorem unescape_escEncList (p : List Nat) :
    unescape (escEncList p) = p := by
  induction p with
  | nil => rfl
  | cons b rest ih =>
    show unescape (escEnc b ++ escEncList rest) = b :: rest
    by_cases h : needs_escape b
    · rw [show escEnc b = [125, b ^^^ 32] from by simp [escEnc, h]]
      show unescape (125 :: (b ^^^ 32) :: escEncList rest) = b :: rest
      rw [show unescape (125 :: (b ^^^ 32) :: escEncList rest) =
          ((b ^^^ 32) ^^^ 32) :: unescape (escEncList rest) from rfl]
      rw [Nat.xor_cancel_right, ih]
    · rw [show escEnc b = [b] from by simp [escEnc, h]]
      have hb : b ≠ 125 := by
        intro hb; subst hb; simp [needs_escape] at h
      show unescape (b :: escEncList rest) = b :: rest
      rw [unescape_cons_ne hb, ih]

/-- C6: the escape-aware writer emits each byte in `{ '$', '#', '}', '*' }`
as `'}'` followed by the byte XOR 0x20 and every other byte verbatim
(`escEnc`), both for a single `write` and a `write_all` over a payload;
the escape is applied exactly once, and the original payload is recovered
from the emitted stream by the inverse rule. -/
theorem escape_write_roundtrip :
    (∀ (s : Strm) (b : Nat), rw_write s b =
      (.ok (escEnc b).length,
       ⟨s.buf ++ escEnc b, chk_fold s.chksm_acc (escEnc b)⟩))
    ∧ (∀ (s : Strm) (p : List Nat), rw_write_all s p =
      (.ok (escEncList p).length,
       ⟨s.buf ++ escEncList p, chk_fold s.chksm_acc (escEncList p)⟩))
    ∧ (∀ b : Nat, needs_escape b = true → escEnc b = [125, b ^^^ 32])
    ∧ (∀ b : Nat, needs_escape b = false → escEnc b = [b])
    ∧ (∀ p : List Nat, unescape (escEncList p) = p) := by
  refine ⟨rw_write_eq, ?_, ?_, ?_, unescape_escEncList⟩
  · intro s p
    have := rw_write_all_go_eq p s 0
    simpa [rw_write_all] using this
  · intro b h; simp [escEnc, h]
  · intro b h; simp [escEnc, h]

/-- Witness for C6 at concrete inputs: writing the payload `"$B"` from the
empty sink emits `'}' 0x04 'B'`, and the inverse rule recovers the
payload. -/
theorem escape_write_roundtrip_witness :
    rw_write_all ⟨[], 0⟩ [36, 66] = (.ok 3, ⟨[125, 4, 66], 195⟩)
    ∧ escEnc 36 = [125, 4]
    ∧ escEnc 66 = [66]
    ∧ unescape (escEncList [36, 66]) = [36, 66] := by
  refine ⟨?_, ?_, ?_, escape_write_roundtrip.2.2.2.2 [36, 66]⟩
  · have h := escape_write_roundtrip.2.1 ⟨[], 0⟩ [36, 66]
    rw [h]
    rfl
  · exact (escape_write_roundtrip.2.2.1 36 (by decide)).trans (by decide)
  · exact (escape_write_roundtrip.2.2.2.1 66 (by decide))

/-! ## C4: checksum mismatch yields Retransmit(InvalidChecksum) -/

theorem getD_append_len (l : List Nat) :
    ∀ (m : List Nat) (k : Nat), (l ++ m).getD (l.length + k) 0 = m.getD k 0 := by
  induction l with
  | nil => intro m k; simp
  | cons a l ih =>
    intro m k
    rw [List.cons_append, show (a :: l).length + k = (l.length + k) + 1 from by
      simp; omega, List.getD_cons_succ]
    exact ih m k

theorem getD_append_lt (l : List Nat) :
    ∀ (m : List Nat) (j : Nat), j < l.length → (l ++ m).getD j 0 = l.getD j 0 := by
  induction l with
  | nil => intro m j h; simp at h
  | cons a l ih =>
    intro m j h
    cases j with
    | zero => simp
    | succ j =>
      rw [List.cons_append, List.getD_cons_succ, List.getD_cons_succ]
      exact ih m j (by simpa using h)

theorem getD_mem {l : List Nat} {j : Nat} (h : j < l.length) :
    l.getD j 0 ∈ l := by
  rw [List.getD_eq_getElem l 0 h]
  exact List.getElem_mem h

theorem parse_until_end_go_lands (P : List Nat) (m : Nat) (hm : m < P.length)
    (hPm : P.getD m 0 = 35) :
    ∀ fuel i, i ≤ m → m - i ≤ fuel →
      (∀ j, i ≤ j → j < m → P.getD j 0 ≠ 35) →
      parse_until_end_go fuel ⟨P, i⟩ = ⟨P, m⟩ := by
  intro fuel
  induction fuel with
  | zero =>
    intro i h1 h2 _
    have him : i = m := by omega
    subst him
    rfl
  | succ fuel ih =>
    intro i h1 h2 h3
    rw [show parse_until_end_go (fuel + 1) ⟨P, i⟩ =
        (if (⟨P, i⟩ : PState).peek ≠ 35 ∧ ¬(⟨P, i⟩ : PState).is_at_end then
          parse_until_end_go fuel (⟨P, i⟩ : PState).bump
        else ⟨P, i⟩) from by simp [parse_until_end_go]]
    by_cases him : i = m
    · subst him
      rw [if_neg]
      simp only [PState.peek, hPm]
      intro hcon
      exact hcon.1 rfl
    · have hlt : i < m := by omega
      rw [if_pos ⟨by simp only [PState.peek]; exact h3 i le_rfl hlt,
        by simp only [PState.is_at_end]; simp; omega⟩]
      exact ih (i + 1) (by omega) (by omega)
        (fun j hj1 hj2 => h3 j (by omega) hj2)

theorem parse_token_go_lands (P : List Nat) (m : Nat) (hm : m < P.length)
    (hPm : is_term_byte (P.getD m 0) = true) :
    ∀ fuel i, i ≤ m → m - i ≤ fuel →
      ∃ t, parse_token_go fuel ⟨P, i⟩ = ⟨P, t⟩ ∧ i ≤ t ∧ t ≤ m ∧
        is_term_byte (P.getD t 0) = true := by
  intro fuel
  induction fuel with
  | zero =>
    intro i h1 h2
    have him : i = m := by omega
    exact ⟨i, rfl, le_rfl, h1, by rw [him]; exact hPm⟩
  | succ fuel ih =>
    intro i h1 h2
    rw [show parse_token_go (fuel + 1) ⟨P, i⟩ =
        (if ¬(⟨P, i⟩ : PState).is_at_end ∧ ¬(⟨P, i⟩ : PState).is_term then
          parse_token_go fuel (⟨P, i⟩ : PState).bump
        else ⟨P, i⟩) from by simp [parse_token_go]]
    by_cases hterm : is_term_byte (P.getD i 0) = true
    · rw [if_neg]
      · exact ⟨i, rfl, le_rfl, h1, hterm⟩
      · intro hcon
        exact hcon.2 (by simpa [PState.is_term, PState.peek] using hterm)
    · have him : i ≠ m := fun h => hterm (h ▸ hPm)
      have hlt : i < m := by omega
      rw [if_pos ⟨by simp only [PState.is_at_end]; simp; omega,
        by simpa [PState.is_term, PState.peek] using hterm⟩]
      obtain ⟨t, ht, h4, h5, h6⟩ := ih (i + 1) (by omega) (by omega)
      exact ⟨t, ht, by omega, h5, h6⟩

/-- C4: for every correctly framed input `'$' p '#' d1 d2` (payload `p`
free of `'#'`, checksum digits `d1 d2` hex in either case) whose
transmitted checksum value does not equal the computed checksum of the
packet, `parse_packet` returns `Retransmit(InvalidChecksum)` and no
command, for every registry. -/
theorem checksum_mismatch_retransmits
    (cmds : List Nat → Option (List Nat) → Parsed)
    (p : List Nat) (d1 d2 v1 v2 : Nat)
    (hp : (35 : Nat) ∉ p)
    (h1 : from_hex d1 = some v1) (h2 : from_hex d2 = some v2)
    (hne : 16 * v1 + v2 ≠ chksm (36 :: p ++ 35 :: [d1, d2])) :
    parse_packet cmds ⟨36 :: p ++ 35 :: [d1, d2], 0⟩ =
      some (retransmit .InvalidChecksum,
        ⟨36 :: p ++ 35 :: [d1, d2], p.length + 3⟩) := by
  obtain ⟨P, hP⟩ : ∃ P : List Nat, P = 36 :: p ++ 35 :: [d1, d2] := ⟨_, rfl⟩
  rw [← hP]
  rw [← hP] at hne
  have hPlen : P.length = p.length + 4 := by rw [hP]; simp
  have hg0 : P.getD 0 0 = 36 := by rw [hP]; rfl
  have hgm : P.getD (p.length + 1) 0 = 35 := by
    rw [hP]
    have h0 : (36 :: p ++ 35 :: [d1, d2]).getD (p.length + 1) 0 =
        (p ++ 35 :: [d1, d2]).getD (p.length + 0) 0 := rfl
    rw [h0, getD_append_len]
    rfl
  have hg1 : P.getD (p.length + 2) 0 = d1 := by
    rw [hP]
    have h0 : (36 :: p ++ 35 :: [d1, d2]).getD (p.length + 2) 0 =
        (p ++ 35 :: [d1, d2]).getD (p.length + 1) 0 := rfl
    rw [h0, getD_append_len]
    rfl
  have hg2 : P.getD (p.length + 3) 0 = d2 := by
    rw [hP]
    have h0 : (36 :: p ++ 35 :: [d1, d2]).getD (p.length + 3) 0 =
        (p ++ 35 :: [d1, d2]).getD (p.length + 2) 0 := rfl
    rw [h0, getD_append_len]
    rfl
  have hpj : ∀ j, j < p.length → P.getD (j + 1) 0 = p.getD j 0 := by
    intro j hj
    rw [hP]
    have h0 : (36 :: p ++ 35 :: [d1, d2]).getD (j + 1) 0 =
        (p ++ 35 :: [d1, d2]).getD j 0 := rfl
    rw [h0]
    exact getD_append_lt p _ j hj
  have hgj : ∀ j, 1 ≤ j → j < p.length + 1 → P.getD j 0 ≠ 35 := by
    intro j hj1 hj2
    have hj' : j - 1 < p.length := by omega
    rw [show j = (j - 1) + 1 from by omega, hpj (j - 1) hj']
    intro hcon
    exact hp (hcon ▸ getD_mem hj')
  have e1 : (⟨P, 0⟩ : PState).is_match 45 = (false, ⟨P, 0⟩) := by
    unfold PState.is_match
    rw [show (⟨P, 0⟩ : PState).peek = 36 from hg0, if_neg (by norm_num)]
  have e2 : (⟨P, 0⟩ : PState).is_match 43 = (false, ⟨P, 0⟩) := by
    unfold PState.is_match
    rw [show (⟨P, 0⟩ : PState).peek = 36 from hg0, if_neg (by norm_num)]
  have e3 : (⟨P, 0⟩ : PState).is_match 36 = (true, ⟨P, 1⟩) := by
    unfold PState.is_match
    rw [show (⟨P, 0⟩ : PState).peek = 36 from hg0, if_pos rfl]
    rfl
  have e4 : (⟨P, p.length + 1⟩ : PState).is_match 35 =
      (true, ⟨P, p.length + 2⟩) := by
    unfold PState.is_match
    rw [show (⟨P, p.length + 1⟩ : PState).peek = 35 from hgm, if_pos rfl]
    rfl
  have hver : verify_chksm ⟨P, p.length + 2⟩ = (false, ⟨P, p.length + 3⟩) := by
    unfold verify_chksm
    simp only [PState.advance, PState.bump, PState.peek]
    rw [show p.length + 2 + 1 = p.length + 3 from rfl, hg1, hg2, h1, h2]
    simp only []
    have hbeq : (((v1 <<< 4) ||| v2) == chksm P) = false := by
      rw [lor_sixteen (from_hex_lt h2)]
      simpa using hne
    rw [hbeq]
  have finishA : ∀ nm : List Nat,
      parse_name ⟨P, 1⟩ = (some nm, ⟨P, p.length + 1⟩) →
      parse_packet cmds ⟨P, 0⟩ =
        some (retransmit .InvalidChecksum, ⟨P, p.length + 3⟩) := by
    intro nm hname
    have hgm2 : P[p.length + 1]?.getD 0 = 35 := by
      rw [← List.getD_eq_getElem?_getD]; exact hgm
    simp only [parse_packet, e1, e2, e3, hname]
    simp [PState.peek, hgm2, e4, hver]
  have finishB : ∀ (nm aa : List Nat) (tc : Nat),
      parse_name ⟨P, 1⟩ = (some nm, ⟨P, tc⟩) →
      P.getD tc 0 ≠ 35 →
      parse_until_end ⟨P, tc + 1⟩ = (some aa, ⟨P, p.length + 1⟩) →
      parse_packet cmds ⟨P, 0⟩ =
        some (retransmit .InvalidChecksum, ⟨P, p.length + 3⟩) := by
    intro nm aa tc hname htc hpe
    have htc2 : ¬P[tc]?.getD 0 = 35 := by
      rw [← List.getD_eq_getElem?_getD]; exact htc
    simp only [parse_packet, e1, e2, e3, hname]
    simp [PState.peek, PState.bump, htc2, hpe, e4, hver]
  rcases p with _ | ⟨q, p'⟩
  · -- empty payload: the name is the single byte at the terminator
    apply finishA [35]
    rw [hP]
    rfl
  · have hq0 : P.getD 1 0 = q := by
      rw [show (1 : Nat) = 0 + 1 from rfl, hpj 0 (by simp)]
      rfl
    have hqmem : q ∈ q :: p' := by simp
    have hq35 : q ≠ 35 := fun h => hp (h ▸ hqmem)
    have hplen2 : (q :: p').length = p'.length + 1 := by simp
    by_cases hvq : q = 118 ∨ q = 113
    · -- multi-byte name: `parse_token` scans to the first terminator
      obtain ⟨t, hgo, ht1, htm, hterm⟩ :=
        parse_token_go_lands P ((q :: p').length + 1) (by omega)
          (by rw [hgm]; rfl) (P.length - 1) 1 (by omega) (by omega)
      have hname : parse_name ⟨P, 1⟩ = (slice P 1 t, ⟨P, t⟩) := by
        unfold parse_name
        rw [show (⟨P, 1⟩ : PState).peek = q from hq0]
        have htok : parse_token ⟨P, 1⟩ = (slice P 1 t, ⟨P, t⟩) := by
          unfold parse_token
          rw [show (⟨P, 1⟩ : PState).packet = P from rfl,
            show (⟨P, 1⟩ : PState).current = 1 from rfl, hgo]
        rcases hvq with h | h <;> rw [h] <;> exact htok
      have hslice : ∃ nm, slice P 1 t = some nm := by
        unfold slice; rw [if_pos ⟨ht1, by omega⟩]
        exact ⟨_, rfl⟩
      obtain ⟨nm, hnm⟩ := hslice
      rw [hnm] at hname
      by_cases hpt : P.getD t 0 = 35
      · -- the token ended exactly at the `'#'`
        have htm' : t = (q :: p').length + 1 := by
          by_contra hcon
          exact hgj t ht1 (by omega) hpt
        rw [htm'] at hname
        exact finishA nm hname
      · -- the token ended at another terminator; args run up to the `'#'`
        have htlt : t < (q :: p').length + 1 := by
          rcases Nat.lt_or_ge t ((q :: p').length + 1) with h | h
          · exact h
          · exfalso
            apply hpt
            rw [show t = (q :: p').length + 1 from by omega]
            exact hgm
        have hland : parse_until_end_go (P.length - (t + 1)) ⟨P, t + 1⟩ =
            ⟨P, (q :: p').length + 1⟩ :=
          parse_until_end_go_lands P ((q :: p').length + 1) (by omega) hgm _
            (t + 1) (by omega) (by omega)
            (fun j hj1 hj2 => hgj j (by omega) hj2)
        have hpe : parse_until_end ⟨P, t + 1⟩ =
            (slice P (t + 1) ((q :: p').length + 1),
             ⟨P, (q :: p').length + 1⟩) := by
          unfold parse_until_end
          rw [show (⟨P, t + 1⟩ : PState).packet = P from rfl,
            show (⟨P, t + 1⟩ : PState).current = t + 1 from rfl, hland]
        have hsl : ∃ aa, slice P (t + 1) ((q :: p').length + 1) = some aa := by
          unfold slice; rw [if_pos ⟨by omega, by omega⟩]
          exact ⟨_, rfl⟩
        obtain ⟨aa, hsl⟩ := hsl
        exact finishB nm aa t hname hpt (by rw [hpe, hsl])
    · -- single-byte name: cursor stays at 1, args start after the name byte
      have hname : parse_name ⟨P, 1⟩ = (slice P 1 2, ⟨P, 1⟩) := by
        rw [parse_name.eq_def]
        rw [show (⟨P, 1⟩ : PState).peek = q from hq0]
        push_neg at hvq
        split <;> simp_all
      have hslice : ∃ nm, slice P 1 2 = some nm := by
        unfold slice; rw [if_pos ⟨by omega, by omega⟩]
        exact ⟨_, rfl⟩
      obtain ⟨nm, hnm⟩ := hslice
      rw [hnm] at hname
      have hpt : P.getD (1 : Nat) 0 ≠ 35 := by rw [hq0]; exact hq35
      have hland : parse_until_end_go (P.length - 2) ⟨P, 2⟩ =
          ⟨P, (q :: p').length + 1⟩ :=
        parse_until_end_go_lands P ((q :: p').length + 1) (by omega) hgm _
          2 (by omega) (by omega)
          (fun j hj1 hj2 => hgj j (by omega) hj2)
      have hpe : parse_until_end ⟨P, 2⟩ =
          (slice P 2 ((q :: p').length + 1), ⟨P, (q :: p').length + 1⟩) := by
        unfold parse_until_end
        rw [show (⟨P, 2⟩ : PState).packet = P from rfl,
          show (⟨P, 2⟩ : PState).current = 2 from rfl, hland]
      have hsl : ∃ aa, slice P 2 ((q :: p').length + 1) = some aa := by
        unfold slice; rw [if_pos ⟨by omega, by omega⟩]
        exact ⟨_, rfl⟩
      obtain ⟨aa, hsl⟩ := hsl
      exact finishB nm aa 1 hname hpt (by rw [hpe, hsl])

/-- Witness for C4: `$g#00` (checksum 0x00 instead of 0x67) and
`$g#aB` (lower- and upper-case hex digits, value 0xaB ≠ 0x67) both
yield `Retransmit(InvalidChecksum)`. -/
theorem checksum_mismatch_retransmits_witness :
    parse_packet default_commands ⟨[36, 103, 35, 48, 48], 0⟩ =
      some (retransmit .InvalidChecksum, ⟨[36, 103, 35, 48, 48], 4⟩)
    ∧ parse_packet default_commands ⟨[36, 103, 35, 97, 66], 0⟩ =
      some (retransmit .InvalidChecksum, ⟨[36, 103, 35, 97, 66], 4⟩) := by
  constructor
  · have h := checksum_mismatch_retransmits default_commands [103] 48 48 0 0
      (by decide) (by decide) (by decide) (by decide)
    simpa using h
  · have h := checksum_mismatch_retransmits default_commands [103] 97 66 10 11
      (by decide) (by decide) (by decide) (by decide)
    simpa using h

/-! ## C9: the WriteMemory command -/

/-- C9: for a `WriteMemory` command whose argument payload tokenizes into
`addr`, `size`, `bytes` with `addr` and `size` valid hex: a length
mismatch (`len(bytes)/2 ≠ size`) returns `LengthMismatch` without
invoking the target (the target state `ctx` is returned unchanged);
otherwise `target.wr_memory addr bytes` is invoked and, when it succeeds,
the reply is the framed `$OK#9a` packet with 6 = `pos` returned.  Fewer
than three tokens give `InsufficientArguments`; a non-hex `addr` or
`size` gives `BadNumber`. -/
theorem write_memory_response_spec :
    ∀ (σ : Type) (t : Target σ) (fields : List Nat) (stream : Strm) (ctx : σ)
      (t1 t2 t3 : Option (List Nat)) (p1 p2 p3 : PState),
      next_token ⟨fields, 0⟩ = (t1, p1) →
      next_token p1 = (t2, p2) →
      next_token p2 = (t3, p3) →
      ((t1 = none ∨ t2 = none ∨ t3 = none) →
        write_memory_response t fields stream ctx =
          (.error .InsufficientArguments, ⟨[36], 0⟩, ctx))
      ∧ (∀ addrTok sizeTok bytes, t1 = some addrTok → t2 = some sizeTok →
          t3 = some bytes →
          ((from_hexu addrTok = none ∨ from_hexu sizeTok = none) →
            write_memory_response t fields stream ctx =
              (.error .BadNumber, ⟨[36], 0⟩, ctx))
          ∧ (∀ a n, from_hexu addrTok = some a → from_hexu sizeTok = some n →
              (bytes.length / 2 ≠ n →
                write_memory_response t fields stream ctx =
                  (.error .LengthMismatch, ⟨[36], 0⟩, ctx))
              ∧ (∀ k ctx', bytes.length / 2 = n →
                  t.wr_memory ctx a bytes = (.ok k, ctx') →
                  write_memory_response t fields stream ctx =
                    (.ok 6, ⟨[36, 79, 75, 35, 57, 97], 308⟩, ctx')))) := by
  intro σ t fields stream ctx t1 t2 t3 p1 p2 p3 h1 h2 h3
  have hstart : rw_start (Strm.reset stream) = (.ok 1, ⟨[36], 0⟩) := by
    simp [rw_start, rw_write_force, Strm.write, Strm.reset, chk_step]
  have hok : rw_ok ⟨[36], 0⟩ = (.ok 2, ⟨[36, 79, 75], 154⟩) := by
    simp only [rw_ok, rw_write_all, rw_write_all_go, rw_write_eq]
    norm_num [escEnc, needs_escape, chk_fold, chk_step]
  have hend : rw_end ⟨[36, 79, 75], 154⟩ =
      (.ok 3, ⟨[36, 79, 75, 35, 57, 97], 308⟩) := rfl
  constructor
  · intro hnone
    simp only [write_memory_response]
    rw [hstart]
    simp only [h1, h2, h3]
    rcases t1 with _ | x1 <;> rcases t2 with _ | x2 <;>
      rcases t3 with _ | x3 <;>
      first
        | rfl
        | (exfalso; simp_all)
  · intro addrTok sizeTok bytes ha hs hb
    subst ha hs hb
    constructor
    · intro hbad
      simp only [write_memory_response]
      rw [hstart]
      simp only [h1, h2, h3]
      rcases hbad with h | h
      · rw [h]
      · rw [h]
        cases hx : from_hexu addrTok <;> rfl
    · intro a n haddr hsize
      constructor
      · intro hmis
        simp only [write_memory_response]
        rw [hstart]
        simp only [h1, h2, h3, haddr, hsize]
        simp [hmis]
      · intro k ctx' hlen hwr
        simp only [write_memory_response]
        rw [hstart]
        simp only [h1, h2, h3, haddr, hsize]
        rw [if_neg (by omega)]
        simp only [hwr, hok, hend]
        rfl

/-- Witness for C9 at the concrete argument payload `"64,4:ab000000"`
against a trivial target over the unit state. -/
theorem write_memory_response_spec_witness :
    write_memory_response
      (⟨fun _ => [83, 48, 53], fun _ s => (.ok 0, s), fun _ _ => (.ok 0, ()),
        fun _ _ _ s => (.ok 0, s), fun _ _ _ => (.ok 0, ())⟩ : Target Unit)
      [54, 52, 44, 52, 58, 97, 98, 48, 48, 48, 48, 48, 48] ⟨[], 0⟩ () =
      (.ok 6, ⟨[36, 79, 75, 35, 57, 97], 308⟩, ()) := by
  have h := (((write_memory_response_spec Unit
      ⟨fun _ => [83, 48, 53], fun _ s => (.ok 0, s), fun _ _ => (.ok 0, ()),
        fun _ _ _ s => (.ok 0, s), fun _ _ _ => (.ok 0, ())⟩
      [54, 52, 44, 52, 58, 97, 98, 48, 48, 48, 48, 48, 48] ⟨[], 0⟩ ()
      (some [54, 52]) (some [52]) (some [97, 98, 48, 48, 48, 48, 48, 48])
      ⟨[54, 52, 44, 52, 58, 97, 98, 48, 48, 48, 48, 48, 48], 3⟩
      ⟨[54, 52, 44, 52, 58, 97, 98, 48, 48, 48, 48, 48, 48], 5⟩
      ⟨[54, 52, 44, 52, 58, 97, 98, 48, 48, 48, 48, 48, 48], 14⟩
      (by decide) (by decide) (by decide)).2
      [54, 52] [52] [97, 98, 48, 48, 48, 48, 48, 48] rfl rfl rfl).2
      100 4 (by decide) (by decide)).2 0 () (by decide) rfl
  exact h

end EmbedGdb
